import Mathlib

/-
Verification development for the Notion API importer
(src/src/formats/notion-api.ts of spullara/obsidian-importer).

The importer manipulates raw JSON payloads returned by the Notion API, so the
embedding starts from a model of JavaScript values.  Pure functions of the
source (extractPropertyValue, the frontmatter serialization of
convertPageToMarkdown, the active-property inference of createBaseFile) are
translated directly; the page-fetch loop (fetchAllPages) and the driver
method of the importer are modelled over a scripted fetch capability and a
polled cancellation oracle.  A JavaScript exception is modelled as the error
JsErr.thrown of an Except computation; recursion through formula and rollup
payloads, and through nested arrays during string coercion, is bounded by an
explicit fuel parameter, with JsErr.fuelOut marking fuel exhaustion (a model
artifact, distinct from a thrown exception).
-/

/-- A JavaScript value, as needed to model the JSON payloads of the Notion
API.  Numbers are modelled as integers (every numeric value appearing in the
claims is integral); objects and arrays are finite and acyclic. -/
inductive JVal where
  | jnull
  | undefined
  | bool (b : Bool)
  | num (n : Int)
  | str (s : String)
  | arr (elems : List JVal)
  | obj (fields : List (String × JVal))

/-- A value is nullish when it is null or undefined; property access on a
nullish value throws, and optional chaining short-circuits on it. -/
def JVal.nullish : JVal → Bool
  | .jnull => true
  | .undefined => true
  | _ => false

/-- JavaScript truthiness.  NaN does not arise in the model. -/
def jsTruthy : JVal → Bool
  | .jnull => false
  | .undefined => false
  | .bool b => b
  | .num n => decide (n ≠ 0)
  | .str s => decide (s ≠ "")
  | .arr _ => true
  | .obj _ => true

/-- First binding of a key in an object field list. -/
def lookupField : List (String × JVal) → String → Option JVal
  | [], _ => none
  | (k, v) :: rest, key => if k = key then some v else lookupField rest key

/-- Property access v.k on a value already known to be non-nullish: a field
lookup on objects, undefined on primitives — matching JavaScript.  Callers
use jsDotStrict when the base may be nullish. -/
def jsDot : JVal → String → JVal
  | .obj fs, key => (lookupField fs key).getD .undefined
  | _, _ => .undefined

/-- Failure of a modelled JavaScript computation: thrown is a TypeError
raised by the code, fuelOut is exhaustion of the recursion fuel of the model
(never produced by the source itself). -/
inductive JsErr where
  | thrown
  | fuelOut

/-- Property access v.k where v may be nullish, in which case JavaScript
throws a TypeError. -/
def jsDotStrict (v : JVal) (key : String) : Except JsErr JVal :=
  if v.nullish then .error .thrown else .ok (jsDot v key)

/-- Optional chaining v?.k: undefined when v is nullish, otherwise plain
property access. -/
def optChain (v : JVal) (key : String) : JVal :=
  if v.nullish then .undefined else jsDot v key

/-- The pattern expr-or-null of the source: x when x is truthy, null
otherwise. -/
def orNull (v : JVal) : JVal := if jsTruthy v then v else .jnull

/-- Effectful map over a list, short-circuiting on the first error — the
behaviour of Array.prototype.map with a throwing callback. -/
def exMapM {α β : Type} (f : α → Except JsErr β) : List α → Except JsErr (List β)
  | [] => .ok []
  | x :: rest =>
    match f x with
    | .error e => .error e
    | .ok y =>
      match exMapM f rest with
      | .error e => .error e
      | .ok ys => .ok (y :: ys)

/-- JavaScript String(v) conversion, with fuel bounding the recursion into
nested arrays; with the fuel exhausted a nested array renders as the empty
string (a model artifact, irrelevant at the nesting depths the claims use).
Inside an array, null and undefined elements render as empty strings. -/
def jsToStringF : Nat → JVal → String
  | _, .jnull => "null"
  | _, .undefined => "undefined"
  | _, .bool true => "true"
  | _, .bool false => "false"
  | _, .num n => toString n
  | _, .str s => s
  | _, .obj _ => "[object Object]"
  | 0, .arr _ => ""
  | fuel + 1, .arr elems =>
    String.intercalate "," (elems.map (fun v =>
      match v with
      | .jnull => ""
      | .undefined => ""
      | w => jsToStringF fuel w))

/-- Array.prototype.join with the given separator: null and undefined
elements become empty strings, the others are String()-converted. -/
def joinValsF (fuel : Nat) (sep : String) (vs : List JVal) : String :=
  String.intercalate sep (vs.map (fun v =>
    match v with
    | .jnull => ""
    | .undefined => ""
    | w => jsToStringF fuel w))

/-- Whitespace for the purposes of String.prototype.trim; the ASCII
whitespace characters cover every payload the claims involve. -/
def jsWhitespaceB (c : Char) : Bool :=
  c = ' ' || c = '\t' || c = '\n' || c = '\r' || c = '\x0b' || c = '\x0c'

/-- String.prototype.trim, implemented over the character list so that it
evaluates inside the kernel. -/
def jsTrim (s : String) : String :=
  String.mk (((s.data.dropWhile jsWhitespaceB).reverse.dropWhile jsWhitespaceB).reverse)

/-- The switch scrutinee property.type of the extractor, collapsed to a
string: a non-string tag matches none of the case labels, exactly like the
empty string, which also matches none of them. -/
def typeTag (p : JVal) : String :=
  match jsDot p "type" with
  | .str s => s
  | _ => ""

/-- The pattern s.trim() followed by or-null of the source: the empty string
becomes null. -/
def strOrNull (s : String) : JVal := if s = "" then .jnull else .str s

/-- The shape field?.map(callback).join(sep) followed by or-empty-string,
.trim() and or-null, shared by the rich_text, multi_select, people, files,
relation and rollup arms of the extractor.  A nullish field short-circuits
to the empty string, hence null; a non-nullish non-array has no map method
and throws. -/
def arrJoinWith (fuel : Nat) (sep : String) (f : JVal → Except JsErr JVal) (v : JVal) :
    Except JsErr JVal :=
  if v.nullish then .ok .jnull
  else
    match v with
    | .arr elems =>
      match exMapM f elems with
      | .error e => .error e
      | .ok vs => .ok (strOrNull (jsTrim (joinValsF fuel sep vs)))
    | _ => .error .thrown

/-- The number and checkbox arms: pass the raw field through unless it is
null or undefined, so that 0 and false survive extraction. -/
def passNonNull (v : JVal) : JVal := if v.nullish then .jnull else v

/-- The url, email and phone_number arms: field?.trim() or-null.  A
non-string non-nullish field has no trim method and throws. -/
def stringTrimOrNull (v : JVal) : Except JsErr JVal :=
  if v.nullish then .ok .jnull
  else
    match v with
    | .str s => .ok (strOrNull (jsTrim s))
    | _ => .error .thrown

/-- The people callback person.name or person.id: throws when the element is
nullish. -/
def peopleLabel (person : JVal) : Except JsErr JVal :=
  match jsDotStrict person "name" with
  | .error e => .error e
  | .ok n => .ok (if jsTruthy n then n else jsDot person "id")

/-- The files callback file.name or file.file?.url or file.external?.url:
throws when the element is nullish; the last alternative is returned even
when it is undefined, as JavaScript or-chains do. -/
def fileLabel (file : JVal) : Except JsErr JVal :=
  match jsDotStrict file "name" with
  | .error e => .error e
  | .ok n =>
    if jsTruthy n then .ok n
    else if jsTruthy (optChain (jsDot file "file") "url") then
      .ok (optChain (jsDot file "file") "url")
    else .ok (optChain (jsDot file "external") "url")

/-- The extractPropertyValue method of NotionAPIImporter (notion-api.ts
lines 327-377), dispatching on the type tag of the property payload.  The
fuel bounds the formula and rollup recursion; a thrown TypeError (for
example from property access on a nullish value) is JsErr.thrown. -/
def extractPropertyValue : Nat → JVal → Except JsErr JVal
  | 0, _ => .error .fuelOut
  | fuel + 1, property =>
    if property.nullish then .error .thrown
    else
      let tt := typeTag property
      if tt = "rich_text" then
        arrJoinWith fuel "" (fun t => jsDotStrict t "plain_text") (jsDot property "rich_text")
      else if tt = "number" then
        .ok (passNonNull (jsDot property "number"))
      else if tt = "select" then
        .ok (orNull (optChain (jsDot property "select") "name"))
      else if tt = "multi_select" then
        arrJoinWith fuel ", " (fun item => jsDotStrict item "name") (jsDot property "multi_select")
      else if tt = "date" then
        .ok (orNull (optChain (jsDot property "date") "start"))
      else if tt = "checkbox" then
        .ok (passNonNull (jsDot property "checkbox"))
      else if tt = "url" then stringTrimOrNull (jsDot property "url")
      else if tt = "email" then stringTrimOrNull (jsDot property "email")
      else if tt = "phone_number" then stringTrimOrNull (jsDot property "phone_number")
      else if tt = "people" then
        arrJoinWith fuel ", " peopleLabel (jsDot property "people")
      else if tt = "files" then
        arrJoinWith fuel ", " fileLabel (jsDot property "files")
      else if tt = "relation" then
        arrJoinWith fuel ", " (fun rel => jsDotStrict rel "id") (jsDot property "relation")
      else if tt = "formula" then
        extractPropertyValue fuel (jsDot property "formula")
      else if tt = "rollup" then
        if (jsDot property "rollup").nullish then .ok .jnull
        else
          arrJoinWith fuel ", " (fun item => extractPropertyValue fuel item)
            (jsDot (jsDot property "rollup") "array")
      else .ok .jnull

/-- Object.keys: the field names of an object, the index strings of an array
or a string, empty for other primitives.  Callers check for nullish bases
first, since Object.keys throws on null and undefined. -/
def jsKeys : JVal → List String
  | .obj fs => fs.map (fun kv => kv.1)
  | .arr xs => xs.enum.map (fun p => toString p.1)
  | .str s => s.data.enum.map (fun p => toString p.1)
  | _ => []

/-- Object.entries: key-value pairs of an object, index-element pairs of an
array or a string, empty for other primitives, and a TypeError on null and
undefined. -/
def jsEntries : JVal → Except JsErr (List (String × JVal))
  | .jnull => .error .thrown
  | .undefined => .error .thrown
  | .obj fs => .ok fs
  | .arr xs => .ok (xs.enum.map (fun p => (toString p.1, p.2)))
  | .str s => .ok (s.data.enum.map (fun p => (toString p.1, JVal.str (String.mk [p.2]))))
  | _ => .ok []

/-- Whether a schema type tag is the string value title, the comparison the
source writes as a strict equality against the literal. -/
def isTitleTag : JVal → Bool
  | .str s => s = "title"
  | _ => false

/-- The expression databaseDetails.properties[key]?.type of the source:
throws when databaseDetails or its properties field is nullish, yields
undefined when the key is absent or its entry is nullish. -/
def schemaTypeOf (dd : JVal) (key : String) : Except JsErr JVal :=
  if dd.nullish then .error .thrown
  else
    let props := jsDot dd "properties"
    if props.nullish then .error .thrown
    else .ok (optChain (jsDot props key) "type")

/-- The replace of every newline by a space performed on frontmatter values
(the regex of the source matches the newline character globally). -/
def collapseNewlines (l : List Char) : List Char :=
  l.map (fun c => if c = '\n' then ' ' else c)

/-- The replace of every double quote by a backslash-quote pair performed on
frontmatter values. -/
def escapeQuotes : List Char → List Char
  | [] => []
  | c :: rest => if c = '"' then '\\' :: '"' :: escapeQuotes rest else c :: escapeQuotes rest

/-- The cleaned form of a frontmatter value: String(value) with newlines
collapsed to spaces and double quotes escaped, notion-api.ts line 294. -/
def cleanValueChars (fuel : Nat) (v : JVal) : List Char :=
  escapeQuotes (collapseNewlines (jsToStringF fuel v).data)

/-- The value part of a frontmatter line, notion-api.ts lines 294-299: the
cleaned value, wrapped in double quotes when it contains a colon, contains a
newline, or is longer than 100 characters. -/
def yamlValueChars (fuel : Nat) (v : JVal) : List Char :=
  let c := cleanValueChars fuel v
  if ':' ∈ c ∨ '\n' ∈ c ∨ 100 < c.length then '"' :: (c ++ ['"']) else c

/-- One emitted frontmatter line, key colon space value newline. -/
def frontLine (fuel : Nat) (key : String) (v : JVal) : List Char :=
  key.data ++ (": ").data ++ yamlValueChars fuel v ++ ['\n']

/-- The property loop of convertPageToMarkdown, notion-api.ts lines 289-302:
for every entry of page.properties whose schema type is not title, extract
the value, and when the value is truthy with a non-blank string form append
a frontmatter line for it.  A thrown extraction aborts the whole
conversion. -/
def propLinesGo (dd : JVal) (fuel : Nat) : List (String × JVal) → Except JsErr (List Char)
  | [] => .ok []
  | (key, property) :: rest =>
    match schemaTypeOf dd key with
    | .error e => .error e
    | .ok tt =>
      if isTitleTag tt then propLinesGo dd fuel rest
      else
        match extractPropertyValue fuel property with
        | .error e => .error e
        | .ok value =>
          match propLinesGo dd fuel rest with
          | .error e => .error e
          | .ok tail =>
            if jsTruthy value = true ∧ jsTrim (jsToStringF fuel value) ≠ "" then
              .ok (frontLine fuel key value ++ tail)
            else .ok tail

/-- The length test titleValue.title.length greater than zero: array and
string lengths, a numeric length field on plain objects, false elsewhere
(undefined compared with a number is false). -/
def lengthGT0 : JVal → Bool
  | .arr xs => decide (0 < xs.length)
  | .str s => decide (0 < s.data.length)
  | .obj fs =>
    match lookupField fs "length" with
    | some (.num n) => decide (0 < n)
    | _ => false
  | _ => false

/-- The find over Object.keys(databaseDetails.properties) locating the first
key whose declared type is title, notion-api.ts lines 270-272; the type
field is read without optional chaining, so a nullish schema entry throws. -/
def findTitleKeyGo (dpr : JVal) : List String → Except JsErr (Option String)
  | [] => .ok none
  | k :: rest =>
    match jsDotStrict (jsDot dpr k) "type" with
    | .error e => .error e
    | .ok tv => if isTitleTag tv then .ok (some k) else findTitleKeyGo dpr rest

/-- Title resolution of convertPageToMarkdown, notion-api.ts lines 270-280:
find the schema key with type title; when that key is a truthy string, the
record carries a truthy value for it, and that value has a truthy title
field of positive length, join the plain_text of the runs; otherwise the
literal Untitled.  The run array is read with map, so a non-array that
passes the length test throws, as does a nullish run element. -/
def resolveTitle (dd : JVal) (fuel : Nat) (page : JVal) : Except JsErr String :=
  if dd.nullish then .error .thrown
  else
    let dpr := jsDot dd "properties"
    if dpr.nullish then .error .thrown
    else
      match findTitleKeyGo dpr (jsKeys dpr) with
      | .error e => .error e
      | .ok none => .ok "Untitled"
      | .ok (some k) =>
        if k = "" then .ok "Untitled"
        else
          match jsDotStrict page "properties" with
          | .error e => .error e
          | .ok pp =>
            if pp.nullish then .error .thrown
            else
              let titleValue := jsDot pp k
              if jsTruthy titleValue = false then .ok "Untitled"
              else
                let tarr := jsDot titleValue "title"
                if jsTruthy tarr && lengthGT0 tarr then
                  match tarr with
                  | .arr runs =>
                    match exMapM (fun t => jsDotStrict t "plain_text") runs with
                    | .error e => .error e
                    | .ok vs => .ok (joinValsF fuel "" vs)
                  | _ => .error .thrown
                else .ok "Untitled"

/-- Modelled from the spec: filename sanitization is a collaborator
concern (sanitizeFilePath of the FormatImporter base class, not under
src); the spec only requires a legal path segment, so the model keeps the
title unchanged. -/
def sanitizeFilePath (title : String) : String := title

/-- The convertPageToMarkdown method, notion-api.ts lines 267-313, up to and
including the computation of the returned file name: resolve the title,
build the frontmatter block, the closing delimiter and the heading.  The
write of the document is a collaborator call assumed to succeed. -/
def convertPageToMarkdown (dd : JVal) (fuel : Nat) (page : JVal) :
    Except JsErr (String × List Char) :=
  match resolveTitle dd fuel page with
  | .error e => .error e
  | .ok title =>
    match jsDotStrict page "properties" with
    | .error e => .error e
    | .ok pp =>
      match jsEntries pp with
      | .error e => .error e
      | .ok entries =>
        match propLinesGo dd fuel entries with
        | .error e => .error e
        | .ok plines =>
          let md : List Char :=
            ("---\n").data
            ++ ("notion_id: ").data ++ (jsToStringF fuel (jsDot page "id")).data ++ ['\n']
            ++ ("created: ").data ++ (jsToStringF fuel (jsDot page "created_time")).data ++ ['\n']
            ++ ("updated: ").data ++ (jsToStringF fuel (jsDot page "last_edited_time")).data ++ ['\n']
            ++ plines
            ++ ("---\n\n").data
            ++ ("# ").data ++ title.data ++ ("\n\n").data
          .ok (sanitizeFilePath title ++ ".md", md)

/-- The try-catch wrapper of convertPageToMarkdown: a thrown error is caught
and logged, and the method returns null so the record is skipped.  Fuel
exhaustion of the model is not a JavaScript error and propagates. -/
def convertPageCaught (dd : JVal) (fuel : Nat) (page : JVal) : Except Unit (Option String) :=
  match convertPageToMarkdown dd fuel page with
  | .ok r => .ok (some r.1)
  | .error .thrown => .ok none
  | .error .fuelOut => .error ()

/-- One add on the Set of createBaseFile: insertion order is preserved and
duplicates are ignored. -/
def insertUnique (acc : List String) (k : String) : List String :=
  if k ∈ acc then acc else acc ++ [k]

/-- The meaningful-value test of createBaseFile line 404: not null, not
undefined, not the empty string and not false.  Zero passes. -/
def meaningful : JVal → Bool
  | .jnull => false
  | .undefined => false
  | .str s => decide (s ≠ "")
  | .bool b => b
  | _ => true

/-- The inner loop of createBaseFile over Object.entries(page.properties),
notion-api.ts lines 398-408: skip entries whose schema type is title,
extract the rest and add the key when the value is meaningful. -/
def entriesActiveGo (dd : JVal) (fuel : Nat) :
    List (String × JVal) → List String → Except JsErr (List String)
  | [], acc => .ok acc
  | (key, property) :: rest, acc =>
    match schemaTypeOf dd key with
    | .error e => .error e
    | .ok tt =>
      if isTitleTag tt then entriesActiveGo dd fuel rest acc
      else
        match extractPropertyValue fuel property with
        | .error e => .error e
        | .ok value =>
          entriesActiveGo dd fuel rest (if meaningful value then insertUnique acc key else acc)

/-- The outer loop of createBaseFile over all pages, lines 397-409. -/
def pagesActiveGo (dd : JVal) (fuel : Nat) :
    List JVal → List String → Except JsErr (List String)
  | [], acc => .ok acc
  | page :: rest, acc =>
    match jsDotStrict page "properties" with
    | .error e => .error e
    | .ok pp =>
      match jsEntries pp with
      | .error e => .error e
      | .ok entries =>
        match entriesActiveGo dd fuel entries acc with
        | .error e => .error e
        | .ok acc2 => pagesActiveGo dd fuel rest acc2

/-- The createBaseFile method, notion-api.ts lines 390-473: compute the
ordered list of property names that carry data anywhere, and the produced
file name.  The emitted text is a fixed template around these names — its
properties section lists every active name and then notion_id, created and
updated, and its table view orders by the first eight active names — so the
model returns the section name list together with the file name; the vault
write is a collaborator call assumed to succeed. -/
def createBaseFile (dbTitle : String) (dd : JVal) (fuel : Nat) (pages : List JVal) :
    Except JsErr (String × List String) :=
  match pagesActiveGo dd fuel pages [] with
  | .error e => .error e
  | .ok propertiesWithData =>
    .ok (sanitizeFilePath dbTitle ++ ".base",
         propertiesWithData ++ ["notion_id", "created", "updated"])

/-- The try-catch wrapper of createBaseFile: a thrown error is caught and
logged and the method returns null. -/
def createBaseFileCaught (dbTitle : String) (dd : JVal) (fuel : Nat) (pages : List JVal) :
    Except Unit (Option String) :=
  match createBaseFile dbTitle dd fuel pages with
  | .ok r => .ok (some r.1)
  | .error .thrown => .ok none
  | .error .fuelOut => .error ()

/-- One scripted response of the database query endpoint: the fields of the
response body that the page loop reads. -/
structure PageResponse where
  results : List JVal
  has_more : Bool
  next_cursor : Option String

/-- Outcome of the page loop: done carries the accumulated records, the
number of fetch calls issued, the cursor sent on each call and the next
poll index; failed carries the number of calls issued when a transport
error propagated; scriptOut means the scripted responses ran out while the
loop still wanted one (a model artifact). -/
inductive PagOut where
  | done (pages : List JVal) (calls : Nat) (cursors : List (Option String)) (pollNext : Nat)
  | failed (calls : Nat)
  | scriptOut

/-- The while loop of fetchAllPages, notion-api.ts lines 235-265: while
hasMore and the cancellation poll is clear, issue the next scripted fetch
with the current cursor (a scripted transport error propagates), append the
results, and take hasMore and the cursor from the response.  The poll index
advances once per loop test that actually reaches isCancelled — when
hasMore is false the conjunction short-circuits and no poll happens. -/
def fetchAllPagesGo (cancel : Nat → Bool) :
    List (Except Unit PageResponse) → Nat → Bool → Option String → PagOut
  | _, poll, false, _ => .done [] 0 [] poll
  | script, poll, true, cursor =>
    if cancel poll then .done [] 0 [] (poll + 1)
    else
      match script with
      | [] => .scriptOut
      | .error _ :: _ => .failed 1
      | .ok r :: rest =>
        match fetchAllPagesGo cancel rest (poll + 1) r.has_more r.next_cursor with
        | .done ps c cs pend => .done (r.results ++ ps) (c + 1) (cursor :: cs) pend
        | .failed c => .failed (c + 1)
        | .scriptOut => .scriptOut

/-- The fetchAllPages method: the loop entered with no cursor and hasMore
true. -/
def fetchAllPages (cancel : Nat → Bool) (script : List (Except Unit PageResponse))
    (pollStart : Nat) : PagOut :=
  fetchAllPagesGo cancel script pollStart true none

/-- Modelled from the spec: the reporting channel (ImportContext, declared
in main.ts, which is not under src) is observational, so the conversion
loop model records reportNoteSuccess names in successes, reportFailed names
in ctxFailures, console logging as a count, and the per-record document
writes in writes. -/
structure ConvOut where
  writes : List String
  successes : List String
  ctxFailures : List String
  consoleErrors : Nat
  cancelled : Bool
  pollNext : Nat

/-- The page loop of the import method, notion-api.ts lines 189-200: poll
cancellation before each record, convert it, and on a non-null file name
record the write and the success report; a caught conversion failure only
logs to the console — the loop itself never reports a failure through the
channel. -/
def convertLoop (dd : JVal) (fuel : Nat) (cancel : Nat → Bool) :
    List JVal → Nat → Except Unit ConvOut
  | [], poll => .ok ⟨[], [], [], 0, false, poll⟩
  | page :: rest, poll =>
    if cancel poll then .ok ⟨[], [], [], 0, true, poll + 1⟩
    else
      match convertPageCaught dd fuel page with
      | .error e => .error e
      | .ok r =>
        match convertLoop dd fuel cancel rest (poll + 1) with
        | .error e => .error e
        | .ok out =>
          match r with
          | some fn =>
            .ok ⟨fn :: out.writes, fn :: out.successes, out.ctxFailures,
                 out.consoleErrors, out.cancelled, out.pollNext⟩
          | none =>
            .ok ⟨out.writes, out.successes, out.ctxFailures,
                 out.consoleErrors + 1, out.cancelled, out.pollNext⟩

/-- Modelled from the spec: the observable outcome of one run of the import
method, recorded through the injected reporting channel, the console and
the write capability. -/
structure Trace where
  fetchCalls : Nat
  writes : List String
  successes : List String
  ctxFailures : List String
  consoleErrors : Nat

/-- The try block of the import method, notion-api.ts lines 170-220, entered
after the configuration guards with the database details already fetched:
poll cancellation, run the page loop (a propagating transport error is
caught by the method and reported once against the database title), poll
again, convert the pages one at a time, and finally create the base file
when requested and not cancelled.  Cancellation polls are numbered in the
order they occur. -/
def runImport (cancel : Nat → Bool) (dbTitle : String) (dd : JVal)
    (script : List (Except Unit PageResponse)) (createBase : Bool) (fuel : Nat) :
    Except Unit Trace :=
  if cancel 0 then .ok ⟨0, [], [], [], 0⟩
  else
    match fetchAllPages cancel script 1 with
    | .scriptOut => .error ()
    | .failed calls => .ok ⟨calls, [], [], [dbTitle], 1⟩
    | .done pages calls _ pollNext =>
      if cancel pollNext then .ok ⟨calls, [], [], [], 0⟩
      else
        match convertLoop dd fuel cancel pages (pollNext + 1) with
        | .error e => .error e
        | .ok conv =>
          if conv.cancelled then
            .ok ⟨calls, conv.writes, conv.successes, conv.ctxFailures, conv.consoleErrors⟩
          else if createBase && !cancel conv.pollNext then
            match createBaseFileCaught dbTitle dd fuel pages with
            | .error e => .error e
            | .ok none =>
              .ok ⟨calls, conv.writes, conv.successes, conv.ctxFailures, conv.consoleErrors + 1⟩
            | .ok (some bfn) =>
              .ok ⟨calls, conv.writes ++ [bfn], conv.successes ++ [bfn], conv.ctxFailures,
                   conv.consoleErrors⟩
          else .ok ⟨calls, conv.writes, conv.successes, conv.ctxFailures, conv.consoleErrors⟩

/-- A field that the extractor maps over with a strict per-element access:
acceptable when it is nullish (the optional chain short-circuits) or an
array all of whose elements are non-nullish. -/
def okStrictArr (v : JVal) : Bool :=
  v.nullish ||
    (match v with
     | .arr elems => elems.all (fun x => !x.nullish)
     | _ => false)

/-- A field that the extractor trims: acceptable when nullish or a string. -/
def okStrOrNullish (v : JVal) : Bool :=
  v.nullish ||
    (match v with
     | .str _ => true
     | _ => false)

/-- Well-formedness of a property payload: the shapes on which the extractor
provably does not throw.  The dispatch mirrors extractPropertyValue branch
for branch: the payload is non-nullish, mapped-over fields are nullish or
arrays of non-nullish elements, trimmed fields are nullish or strings, a
formula payload is recursively well-formed and a rollup aggregate consists
of recursively well-formed elements. -/
def wfProp : Nat → JVal → Bool
  | 0, _ => false
  | fuel + 1, property =>
    !property.nullish &&
      (let tt := typeTag property
       if tt = "rich_text" then okStrictArr (jsDot property "rich_text")
       else if tt = "number" then true
       else if tt = "select" then true
       else if tt = "multi_select" then okStrictArr (jsDot property "multi_select")
       else if tt = "date" then true
       else if tt = "checkbox" then true
       else if tt = "url" then okStrOrNullish (jsDot property "url")
       else if tt = "email" then okStrOrNullish (jsDot property "email")
       else if tt = "phone_number" then okStrOrNullish (jsDot property "phone_number")
       else if tt = "people" then okStrictArr (jsDot property "people")
       else if tt = "files" then okStrictArr (jsDot property "files")
       else if tt = "relation" then okStrictArr (jsDot property "relation")
       else if tt = "formula" then wfProp fuel (jsDot property "formula")
       else if tt = "rollup" then
         (jsDot property "rollup").nullish ||
           (let a := jsDot (jsDot property "rollup") "array"
            a.nullish ||
              (match a with
               | .arr elems => elems.all (fun x => wfProp fuel x)
               | _ => false))
       else true)

/-- The closed set of type tags the extractor dispatches on. -/
def knownTag (s : String) : Bool :=
  s = "rich_text" || s = "number" || s = "select" || s = "multi_select" ||
  s = "date" || s = "checkbox" || s = "url" || s = "email" ||
  s = "phone_number" || s = "people" || s = "files" || s = "relation" ||
  s = "formula" || s = "rollup"

/-- Total counterpart of the title-key search, agreeing with findTitleKeyGo
whenever the latter does not throw: the strict type read of a nullish schema
entry is replaced by an optional chain, under which the entry simply fails
the test. -/
def findTitleKeyT (dpr : JVal) : Option String :=
  (jsKeys dpr).find? (fun k => isTitleTag (optChain (jsDot dpr k) "type"))

/-- The title-resolution contract in its amended form, written from the
amended claim for comparison with resolveTitle: the first schema key of
declared type title yields the concatenation of the plain_text of the runs
exactly when the key is a non-empty string, the record carries a truthy
value for it, and that value has a truthy title field of positive length;
in every other case the title is the literal Untitled. -/
def titleSpecAmended (dd : JVal) (fuel : Nat) (page : JVal) : String :=
  match findTitleKeyT (jsDot dd "properties") with
  | none => "Untitled"
  | some k =>
    if k = "" then "Untitled"
    else
      let titleValue := jsDot (jsDot page "properties") k
      if jsTruthy titleValue = false then "Untitled"
      else
        let tarr := jsDot titleValue "title"
        if jsTruthy tarr && lengthGT0 tarr then
          match tarr with
          | .arr runs => joinValsF fuel "" (runs.map (fun t => jsDot t "plain_text"))
          | _ => "Untitled"
        else "Untitled"

/-- Membership condition for the active property set: some entry of the
page carries the name, its schema type is not title, and its extracted
value is meaningful. -/
def activeQualifies (dd : JVal) (fuel : Nat) (x : String) (page : JVal) : Prop :=
  ∃ pp entries v tt w,
    jsDotStrict page "properties" = .ok pp ∧
    jsEntries pp = .ok entries ∧
    (x, v) ∈ entries ∧
    schemaTypeOf dd x = .ok tt ∧
    isTitleTag tt = false ∧
    extractPropertyValue fuel v = .ok w ∧
    meaningful w = true

/-- Fixture: a database whose only non-title column is a number property
named count. -/
def ddCount : JVal := .obj [("properties", .obj [("count", .obj [("type", .str "number")])])]

/-- Fixture: a count payload carrying the number 0. -/
def countZeroProp : JVal := .obj [("type", .str "number"), ("number", .num 0)]

/-- Fixture: a count payload carrying null. -/
def countNullProp : JVal := .obj [("type", .str "number"), ("number", .jnull)]

/-- Fixture: a formula property whose nested payload is null. -/
def formulaNullProp : JVal := .obj [("type", .str "formula"), ("formula", .jnull)]

/-- Fixture: a well-formed rich_text property. -/
def wfRichTextProp : JVal :=
  .obj [("type", .str "rich_text"), ("rich_text", .arr [.obj [("plain_text", .str "hi")]])]

/-- Fixture: a property with a type tag outside the dispatched set. -/
def unknownTagProp : JVal := .obj [("type", .str "mystery")]

/-- Fixture: a rich_text property with no runs, extracting to null. -/
def emptyRichTextProp : JVal := .obj [("type", .str "rich_text"), ("rich_text", .arr [])]

/-- Fixture: a rollup whose aggregate holds two elements that each extract
to null. -/
def rollupOfNullsProp : JVal :=
  .obj [("type", .str "rollup"),
        ("rollup", .obj [("array", .arr [emptyRichTextProp, emptyRichTextProp])])]

/-- Fixture: a schema whose title property is named by the empty string. -/
def ddEmptyName : JVal := .obj [("properties", .obj [("", .obj [("type", .str "title")])])]

/-- Fixture: a record carrying a run under the empty-named title property. -/
def pageEmptyName : JVal :=
  .obj [("properties", .obj [("", .obj [("type", .str "title"),
        ("title", .arr [.obj [("plain_text", .str "Hello")]])])])]

/-- Fixture: a schema with an ordinarily named title property. -/
def ddNamed : JVal := .obj [("properties", .obj [("Name", .obj [("type", .str "title")])])]

/-- Fixture: a record titled Good under the Name property. -/
def pageNamed : JVal :=
  .obj [("properties", .obj [("Name", .obj [("type", .str "title"),
        ("title", .arr [.obj [("plain_text", .str "Good")]])])])]

/-- Fixture: the end-to-end schema with a title, a number column count and a
checkbox column done. -/
def ddBase : JVal :=
  .obj [("properties", .obj
    [("Name", .obj [("type", .str "title")]),
     ("count", .obj [("type", .str "number")]),
     ("done", .obj [("type", .str "checkbox")])])]

/-- Fixture: the record with count 0 and done false. -/
def pageCountZero : JVal :=
  .obj [("properties", .obj
    [("count", .obj [("type", .str "number"), ("number", .num 0)]),
     ("done", .obj [("type", .str "checkbox"), ("checkbox", .bool false)])])]

/-- Fixture: the record with count null and done false. -/
def pageCountNull : JVal :=
  .obj [("properties", .obj
    [("count", .obj [("type", .str "number"), ("number", .jnull)]),
     ("done", .obj [("type", .str "checkbox"), ("checkbox", .bool false)])])]

/-- Fixture: a schema with a title column and a formula column Bad. -/
def ddConvert : JVal :=
  .obj [("properties", .obj
    [("Name", .obj [("type", .str "title")]),
     ("Bad", .obj [("type", .str "formula")])])]

/-- Fixture: a record whose Bad property makes conversion throw. -/
def badFormulaPage : JVal :=
  .obj [("id", .str "b"),
        ("properties", .obj [("Bad", .obj [("type", .str "formula"), ("formula", .jnull)])])]

/-- Fixture: a record that converts cleanly with title Good. -/
def goodTitledPage : JVal :=
  .obj [("id", .str "g"),
        ("properties", .obj [("Name", .obj [("type", .str "title"),
          ("title", .arr [.obj [("plain_text", .str "Good")]])])])]

/-- Fixture: one fetched page holding the bad record then the good one. -/
def convertScript : List (Except Unit PageResponse) :=
  [.ok ⟨[badFormulaPage, goodTitledPage], false, none⟩]

/-- Fixture: a first page response that reports more to come. -/
def respA : PageResponse := ⟨[.str "r1"], true, some "cur1"⟩

/-- Fixture: a final page response. -/
def respB : PageResponse := ⟨[.str "r2"], false, none⟩

theorem newline_not_mem_collapse (l : List Char) : '\n' ∉ collapseNewlines l := by
  intro h
  rw [collapseNewlines] at h
  rcases List.mem_map.mp h with ⟨a, _, ha⟩
  by_cases hc : a = '\n'
  · rw [if_pos hc] at ha
    exact absurd ha (by decide)
  · rw [if_neg hc] at ha
    exact hc ha

theorem newline_not_mem_escape (l : List Char) (h : '\n' ∉ l) : '\n' ∉ escapeQuotes l := by
  induction l with
  | nil => simp [escapeQuotes]
  | cons c rest ih =>
    have hc : ¬('\n' = c) := fun hh => h (by rw [hh]; exact List.mem_cons_self c rest)
    have hrest : '\n' ∉ rest := fun hh => h (List.mem_cons_of_mem _ hh)
    rw [escapeQuotes]
    by_cases hq : c = '"'
    · rw [if_pos hq]
      intro hm
      rcases List.mem_cons.mp hm with h1 | hm2
      · exact absurd h1 (by decide)
      · rcases List.mem_cons.mp hm2 with h2 | hm3
        · exact absurd h2 (by decide)
        · exact ih hrest hm3
    · rw [if_neg hq]
      intro hm
      rcases List.mem_cons.mp hm with h1 | hm2
      · exact hc h1
      · exact ih hrest hm2

/-- C3 (amended): for every value the frontmatter serializer collapses
newlines to spaces and escapes double quotes, and it wraps the result in
double quotes exactly when the cleaned value contains a colon or is longer
than 100 characters.  The newline disjunct of the source test can never
fire, because the newlines were already collapsed, so a value whose only
special character was a newline is emitted unquoted. -/
theorem frontmatter_quote_iff_colon_or_long (fuel : Nat) (v : JVal) :
    yamlValueChars fuel v =
      (if ':' ∈ cleanValueChars fuel v ∨ 100 < (cleanValueChars fuel v).length
       then '"' :: (cleanValueChars fuel v ++ ['"'])
       else cleanValueChars fuel v) := by
  have hn : '\n' ∉ cleanValueChars fuel v :=
    newline_not_mem_escape _ (newline_not_mem_collapse _)
  rw [yamlValueChars]
  simp [hn]

/-- C3 (counterexample): the string value with an embedded newline between a
and b contains a newline in the original input, yet it is serialized
unquoted, as a-space-b. -/
theorem newline_only_value_unquoted :
    yamlValueChars 5 (JVal.str "a\nb") = ['a', ' ', 'b'] ∧ '\n' ∈ ("a\nb").data :=
  ⟨rfl, by decide⟩

/-- C1: at the failing input — a record whose number property count extracts
to 0 — the property loop of convertPageToMarkdown emits no frontmatter line
at all, because the truthiness test on the extracted value rejects 0; a
null count also yields no line, and extraction itself does deliver 0, so
the value is lost at serialization. -/
theorem count_zero_line_dropped :
    propLinesGo ddCount 5 [("count", countZeroProp)] = .ok [] ∧
    propLinesGo ddCount 5 [("count", countNullProp)] = .ok [] ∧
    extractPropertyValue 5 countZeroProp = .ok (JVal.num 0) :=
  ⟨rfl, rfl, rfl⟩

/-- C10: a rollup whose aggregate holds two elements that each extract to
null yields the non-null one-character string comma — the join coerces the
null elements to empty strings around the comma-space separator and the
trim removes the trailing space — rather than the null empty sentinel. -/
theorem rollup_of_nulls_yields_separator :
    extractPropertyValue 4 emptyRichTextProp = .ok .jnull ∧
    extractPropertyValue 5 rollupOfNullsProp = .ok (.str ",") :=
  ⟨rfl, rfl⟩

/-- C6: when the cancellation signal is already set at the poll that guards
the first fetch, the page loop issues no fetch call and returns the empty
record list without error. -/
theorem cancelled_before_first_fetch (cancel : Nat → Bool)
    (script : List (Except Unit PageResponse)) (pollStart : Nat)
    (h : cancel pollStart = true) :
    fetchAllPages cancel script pollStart = .done [] 0 [] (pollStart + 1) := by
  rw [fetchAllPages, fetchAllPagesGo.eq_def]
  simp [h]

/-- C6 (witness): a concrete always-cancelled run issues zero fetches. -/
theorem cancelled_before_first_fetch_witness :
    fetchAllPages (fun _ => true) [Except.ok respA] 0 = .done [] 0 [] 1 :=
  cancelled_before_first_fetch (fun _ => true) [Except.ok respA] 0 rfl

/-- C2 (counterexample): the extractor throws a TypeError on a formula
property whose nested payload is null — it reads the type field of null —
instead of degrading to null. -/
theorem extractor_throws_on_malformed_formula :
    extractPropertyValue 5 formulaNullProp = .error .thrown := rfl

theorem fetch_go_all_pages (last : PageResponse) (hlast : last.has_more = false) :
    ∀ (init : List PageResponse) (poll : Nat) (cursor : Option String),
      (∀ r ∈ init, r.has_more = true) →
      fetchAllPagesGo (fun _ => false) ((init ++ [last]).map Except.ok) poll true cursor =
        .done (((init ++ [last]).map PageResponse.results).flatten) (init.length + 1)
          (cursor :: init.map PageResponse.next_cursor) (poll + (init.length + 1)) := by
  intro init
  induction init with
  | nil =>
    intro poll cursor _
    simp only [List.nil_append, List.map_cons, List.map_nil]
    rw [fetchAllPagesGo.eq_def]
    simp only [Bool.false_eq_true, if_false, reduceCtorEq, ite_false]
    rw [hlast, fetchAllPagesGo.eq_def]
    simp
  | cons r g2 ih =>
    intro poll cursor hall
    have hr : r.has_more = true := hall r (List.mem_cons_self r g2)
    have hrest : ∀ x ∈ g2, x.has_more = true := fun x hx => hall x (List.mem_cons_of_mem _ hx)
    simp only [List.cons_append, List.map_cons]
    rw [fetchAllPagesGo.eq_def]
    simp only [Bool.false_eq_true, if_false, reduceCtorEq, ite_false]
    rw [hr, ih (poll + 1) r.next_cursor hrest]
    simp only [List.map_cons, List.flatten_cons, List.length_cons]
    congr 1
    omega

/-- C5: with cancellation never signalled and a script of page responses all
but the last of which report more to come, the page loop issues exactly one
fetch per page — no cursor on the first call and the cursor of each
response on the call after it — and returns the concatenation of all result
batches in arrival order. -/
theorem paginator_visits_every_page (init : List PageResponse) (last : PageResponse)
    (pollStart : Nat)
    (hall : ∀ r ∈ init, r.has_more = true) (hlast : last.has_more = false) :
    fetchAllPages (fun _ => false) ((init ++ [last]).map Except.ok) pollStart =
      .done (((init ++ [last]).map PageResponse.results).flatten)
        ((init ++ [last]).length)
        (none :: init.map PageResponse.next_cursor)
        (pollStart + (init ++ [last]).length) := by
  rw [fetchAllPages, fetch_go_all_pages last hlast init pollStart none hall]
  simp

/-- C5 (witness): a concrete two-page run issues two fetch calls, threads
the cursor of the first response into the second call, and concatenates the
records in order. -/
theorem paginator_visits_every_page_witness :
    fetchAllPages (fun _ => false) ([respA, respB].map Except.ok) 0 =
      .done [.str "r1", .str "r2"] 2 [none, some "cur1"] 2 := by
  have h := paginator_visits_every_page [respA] respB 0
    (by intro r hr; rw [List.mem_singleton] at hr; rw [hr]; rfl) rfl
  simpa [respA, respB] using h

theorem fetch_go_transport_error (rest : List (Except Unit PageResponse)) :
    ∀ (good : List PageResponse) (poll : Nat) (cursor : Option String),
      (∀ r ∈ good, r.has_more = true) →
      fetchAllPagesGo (fun _ => false) ((good.map Except.ok) ++ Except.error () :: rest)
          poll true cursor = .failed (good.length + 1) := by
  intro good
  induction good with
  | nil =>
    intro poll cursor _
    rw [fetchAllPagesGo.eq_def]
    simp
  | cons r g2 ih =>
    intro poll cursor hall
    have hr : r.has_more = true := hall r (List.mem_cons_self r g2)
    have hrest : ∀ x ∈ g2, x.has_more = true := fun x hx => hall x (List.mem_cons_of_mem _ hx)
    simp only [List.map_cons, List.cons_append]
    rw [fetchAllPagesGo.eq_def]
    simp only [Bool.false_eq_true, if_false, reduceCtorEq, ite_false]
    rw [hr, ih (poll + 1) r.next_cursor hrest]
    simp only [List.length_cons]

/-- C7: a transport error raised by any page fetch propagates uncaught out
of the page loop — no fetch beyond the failing call is issued — and it is
caught once by the driver, which reports a single terminal failure against
the selected database title; nothing has been written at that point, since
document writes only begin after the whole fetch completes, and nothing is
ever deleted, so documents already on disk are left in place. -/
theorem transport_error_aborts_import (dbTitle : String) (dd : JVal)
    (good : List PageResponse) (rest : List (Except Unit PageResponse))
    (createBase : Bool) (fuel : Nat)
    (hall : ∀ r ∈ good, r.has_more = true) :
    runImport (fun _ => false) dbTitle dd ((good.map Except.ok) ++ Except.error () :: rest)
        createBase fuel =
      .ok ⟨good.length + 1, [], [], [dbTitle], 1⟩ := by
  rw [runImport]
  simp only [Bool.false_eq_true, if_false, reduceCtorEq, ite_false]
  rw [fetchAllPages, fetch_go_transport_error rest good 1 none hall]

/-- C7 (witness): a concrete run whose second fetch fails issues exactly two
calls and reports one failure named by the database title. -/
theorem transport_error_aborts_import_witness :
    runImport (fun _ => false) "Db" JVal.jnull
        (([respA].map Except.ok) ++ Except.error () :: []) false 6 =
      .ok ⟨2, [], [], ["Db"], 1⟩ := by
  have h := transport_error_aborts_import "Db" JVal.jnull [respA] [] false 6
    (by intro r hr; rw [List.mem_singleton] at hr; rw [hr]; rfl)
  simpa using h

theorem exMapM_ok {f : JVal → Except JsErr JVal} :
    ∀ (xs : List JVal), (∀ x ∈ xs, ∃ y, f x = .ok y) → ∃ ys, exMapM f xs = .ok ys := by
  intro xs
  induction xs with
  | nil => intro _; exact ⟨[], rfl⟩
  | cons x rest ih =>
    intro h
    rcases h x (List.mem_cons_self x rest) with ⟨y, hy⟩
    rcases ih (fun z hz => h z (List.mem_cons_of_mem _ hz)) with ⟨ys, hys⟩
    exact ⟨y :: ys, by simp [exMapM, hy, hys]⟩

theorem jsDotStrict_ok (x : JVal) (key : String) (hx : x.nullish = false) :
    ∃ w, jsDotStrict x key = .ok w :=
  ⟨jsDot x key, by simp [jsDotStrict, hx]⟩

theorem peopleLabel_ok (x : JVal) (hx : x.nullish = false) : ∃ w, peopleLabel x = .ok w :=
  ⟨if jsTruthy (jsDot x "name") then jsDot x "name" else jsDot x "id",
   by simp [peopleLabel, jsDotStrict, hx]⟩

theorem fileLabel_ok (x : JVal) (hx : x.nullish = false) : ∃ w, fileLabel x = .ok w := by
  simp only [fileLabel, jsDotStrict, hx, Bool.false_eq_true, if_false, ite_false]
  by_cases h1 : jsTruthy (jsDot x "name") = true
  · rw [if_pos h1]; exact ⟨_, rfl⟩
  · rw [if_neg h1]
    by_cases h2 : jsTruthy (optChain (jsDot x "file") "url") = true
    · rw [if_pos h2]; exact ⟨_, rfl⟩
    · rw [if_neg h2]; exact ⟨_, rfl⟩

theorem arrJoinWith_ok_nullish (fuel : Nat) (sep : String) (f : JVal → Except JsErr JVal)
    (v : JVal) (hv : v.nullish = true) : arrJoinWith fuel sep f v = .ok .jnull := by
  simp [arrJoinWith, hv]

theorem arrJoinWith_ok_arr (fuel : Nat) (sep : String) (f : JVal → Except JsErr JVal)
    (elems : List JVal) (h : ∀ x ∈ elems, ∃ y, f x = .ok y) :
    ∃ w, arrJoinWith fuel sep f (.arr elems) = .ok w := by
  rcases exMapM_ok elems h with ⟨ys, hys⟩
  refine ⟨strOrNull (jsTrim (joinValsF fuel sep ys)), ?_⟩
  simp [arrJoinWith, JVal.nullish, hys]

theorem okStrictArr_cases (v : JVal) (h : okStrictArr v = true) :
    v.nullish = true ∨ ∃ elems, v = .arr elems ∧ ∀ x ∈ elems, x.nullish = false := by
  cases v with
  | jnull => exact Or.inl rfl
  | undefined => exact Or.inl rfl
  | bool b => simp [okStrictArr, JVal.nullish] at h
  | num n => simp [okStrictArr, JVal.nullish] at h
  | str s => simp [okStrictArr, JVal.nullish] at h
  | obj fs => simp [okStrictArr, JVal.nullish] at h
  | arr elems =>
    simp only [okStrictArr, JVal.nullish, Bool.false_or] at h
    refine Or.inr ⟨elems, rfl, ?_⟩
    rw [List.all_eq_true] at h
    intro x hx
    simpa using h x hx

theorem okStrOrNullish_cases (v : JVal) (h : okStrOrNullish v = true) :
    v.nullish = true ∨ ∃ s, v = .str s := by
  cases v with
  | jnull => exact Or.inl rfl
  | undefined => exact Or.inl rfl
  | bool b => simp [okStrOrNullish, JVal.nullish] at h
  | num n => simp [okStrOrNullish, JVal.nullish] at h
  | arr elems => simp [okStrOrNullish, JVal.nullish] at h
  | obj fs => simp [okStrOrNullish, JVal.nullish] at h
  | str s => exact Or.inr ⟨s, rfl⟩

theorem stringTrimOrNull_ok (v : JVal) (h : okStrOrNullish v = true) :
    ∃ w, stringTrimOrNull v = .ok w := by
  rcases okStrOrNullish_cases v h with h1 | ⟨s, rfl⟩
  · exact ⟨.jnull, by simp [stringTrimOrNull, h1]⟩
  · exact ⟨strOrNull (jsTrim s), by simp [stringTrimOrNull, JVal.nullish]⟩

/-- C2 (amended): the extractor is total and never raises on well-formed
payloads — non-nullish property objects whose mapped-over fields are
nullish or arrays of non-nullish elements, whose trimmed fields are nullish
or strings, whose formula payloads are recursively well-formed and whose
rollup aggregates hold recursively well-formed elements — and any tag
outside the dispatched set yields null; a malformed payload, such as a
formula property whose nested payload is null, instead raises a TypeError
rather than degrading to null. -/
theorem extractor_total_on_wellformed :
    (∀ fuel p, wfProp fuel p = true → ∃ v, extractPropertyValue fuel p = .ok v) ∧
    (∀ fuel p, p.nullish = false → knownTag (typeTag p) = false →
      extractPropertyValue (fuel + 1) p = .ok .jnull) := by
  constructor
  · intro fuel
    induction fuel with
    | zero => intro p h; simp [wfProp] at h
    | succ fuel ih =>
      intro p h
      simp only [wfProp, Bool.and_eq_true, Bool.not_eq_true'] at h
      obtain ⟨h1, h2⟩ := h
      simp only [extractPropertyValue, h1, Bool.false_eq_true, if_false, ite_false]
      by_cases t1 : typeTag p = "rich_text"
      · rw [if_pos t1] at h2 ⊢
        rcases okStrictArr_cases _ h2 with hn | ⟨elems, he, hall⟩
        · exact ⟨.jnull, arrJoinWith_ok_nullish _ _ _ _ hn⟩
        · rw [he]
          exact arrJoinWith_ok_arr _ _ _ elems
            (fun x hx => jsDotStrict_ok x "plain_text" (hall x hx))
      · rw [if_neg t1] at h2 ⊢
        by_cases t2 : typeTag p = "number"
        · rw [if_pos t2]; exact ⟨_, rfl⟩
        · rw [if_neg t2] at h2 ⊢
          by_cases t3 : typeTag p = "select"
          · rw [if_pos t3]; exact ⟨_, rfl⟩
          · rw [if_neg t3] at h2 ⊢
            by_cases t4 : typeTag p = "multi_select"
            · rw [if_pos t4] at h2 ⊢
              rcases okStrictArr_cases _ h2 with hn | ⟨elems, he, hall⟩
              · exact ⟨.jnull, arrJoinWith_ok_nullish _ _ _ _ hn⟩
              · rw [he]
                exact arrJoinWith_ok_arr _ _ _ elems
                  (fun x hx => jsDotStrict_ok x "name" (hall x hx))
            · rw [if_neg t4] at h2 ⊢
              by_cases t5 : typeTag p = "date"
              · rw [if_pos t5]; exact ⟨_, rfl⟩
              · rw [if_neg t5] at h2 ⊢
                by_cases t6 : typeTag p = "checkbox"
                · rw [if_pos t6]; exact ⟨_, rfl⟩
                · rw [if_neg t6] at h2 ⊢
                  by_cases t7 : typeTag p = "url"
                  · rw [if_pos t7] at h2 ⊢
                    exact stringTrimOrNull_ok _ h2
                  · rw [if_neg t7] at h2 ⊢
                    by_cases t8 : typeTag p = "email"
                    · rw [if_pos t8] at h2 ⊢
                      exact stringTrimOrNull_ok _ h2
                    · rw [if_neg t8] at h2 ⊢
                      by_cases t9 : typeTag p = "phone_number"
                      · rw [if_pos t9] at h2 ⊢
                        exact stringTrimOrNull_ok _ h2
                      · rw [if_neg t9] at h2 ⊢
                        by_cases t10 : typeTag p = "people"
                        · rw [if_pos t10] at h2 ⊢
                          rcases okStrictArr_cases _ h2 with hn | ⟨elems, he, hall⟩
                          · exact ⟨.jnull, arrJoinWith_ok_nullish _ _ _ _ hn⟩
                          · rw [he]
                            exact arrJoinWith_ok_arr _ _ _ elems
                              (fun x hx => peopleLabel_ok x (hall x hx))
                        · rw [if_neg t10] at h2 ⊢
                          by_cases t11 : typeTag p = "files"
                          · rw [if_pos t11] at h2 ⊢
                            rcases okStrictArr_cases _ h2 with hn | ⟨elems, he, hall⟩
                            · exact ⟨.jnull, arrJoinWith_ok_nullish _ _ _ _ hn⟩
                            · rw [he]
                              exact arrJoinWith_ok_arr _ _ _ elems
                                (fun x hx => fileLabel_ok x (hall x hx))
                          · rw [if_neg t11] at h2 ⊢
                            by_cases t12 : typeTag p = "relation"
                            · rw [if_pos t12] at h2 ⊢
                              rcases okStrictArr_cases _ h2 with hn | ⟨elems, he, hall⟩
                              · exact ⟨.jnull, arrJoinWith_ok_nullish _ _ _ _ hn⟩
                              · rw [he]
                                exact arrJoinWith_ok_arr _ _ _ elems
                                  (fun x hx => jsDotStrict_ok x "id" (hall x hx))
                            · rw [if_neg t12] at h2 ⊢
                              by_cases t13 : typeTag p = "formula"
                              · rw [if_pos t13] at h2 ⊢
                                exact ih _ h2
                              · rw [if_neg t13] at h2 ⊢
                                by_cases t14 : typeTag p = "rollup"
                                · rw [if_pos t14] at h2 ⊢
                                  by_cases hr : (jsDot p "rollup").nullish = true
                                  · rw [if_pos hr]; exact ⟨_, rfl⟩
                                  · rw [if_neg hr]
                                    have hr2 : (jsDot p "rollup").nullish = false :=
                                      Bool.eq_false_iff.mpr hr
                                    rw [hr2, Bool.false_or, Bool.or_eq_true] at h2
                                    rcases h2 with h2 | h2
                                    · exact ⟨.jnull, arrJoinWith_ok_nullish _ _ _ _ h2⟩
                                    · cases hv : jsDot (jsDot p "rollup") "array" with
                                      | jnull => rw [hv] at h2; exact Bool.noConfusion h2
                                      | undefined => rw [hv] at h2; exact Bool.noConfusion h2
                                      | bool b => rw [hv] at h2; exact Bool.noConfusion h2
                                      | num n => rw [hv] at h2; exact Bool.noConfusion h2
                                      | str s => rw [hv] at h2; exact Bool.noConfusion h2
                                      | obj fs => rw [hv] at h2; exact Bool.noConfusion h2
                                      | arr elems =>
                                        rw [hv] at h2
                                        have h3 : List.all elems (fun x => wfProp fuel x) = true := h2
                                        rw [List.all_eq_true] at h3
                                        exact arrJoinWith_ok_arr _ _ _ elems
                                          (fun x hx => ih x (h3 x hx))
                                · rw [if_neg t14]
                                  exact ⟨_, rfl⟩
  · intro fuel p hnull hunk
    simp only [knownTag, Bool.or_eq_false_iff, decide_eq_false_iff_not] at hunk
    obtain ⟨⟨⟨⟨⟨⟨⟨⟨⟨⟨⟨⟨⟨u1, u2⟩, u3⟩, u4⟩, u5⟩, u6⟩, u7⟩, u8⟩, u9⟩, u10⟩, u11⟩, u12⟩, u13⟩, u14⟩ :=
      hunk
    simp only [extractPropertyValue, hnull, Bool.false_eq_true, if_false, ite_false]
    rw [if_neg u1, if_neg u2, if_neg u3, if_neg u4, if_neg u5, if_neg u6, if_neg u7,
        if_neg u8, if_neg u9, if_neg u10, if_neg u11, if_neg u12, if_neg u13, if_neg u14]

/-- C2 (witness): a concrete well-formed rich_text payload extracts without
raising, and a concrete unknown tag yields null. -/
theorem extractor_total_on_wellformed_witness :
    (∃ v, extractPropertyValue 2 wfRichTextProp = .ok v) ∧
    extractPropertyValue 1 unknownTagProp = .ok .jnull :=
  ⟨extractor_total_on_wellformed.1 2 wfRichTextProp rfl,
   extractor_total_on_wellformed.2 0 unknownTagProp rfl rfl⟩

theorem mem_insertUnique (acc : List String) (k x : String) :
    x ∈ insertUnique acc k ↔ x ∈ acc ∨ x = k := by
  rw [insertUnique]
  by_cases h : k ∈ acc
  · rw [if_pos h]
    constructor
    · exact Or.inl
    · rintro (hx | rfl)
      · exact hx
      · exact h
  · rw [if_neg h]
    simp [List.mem_append]

theorem entriesActiveGo_mem (dd : JVal) (fuel : Nat) :
    ∀ (entries : List (String × JVal)) (acc s : List String),
      entriesActiveGo dd fuel entries acc = .ok s →
      ∀ x, x ∈ s ↔ x ∈ acc ∨ ∃ v,
        (x, v) ∈ entries ∧
        (∃ tt, schemaTypeOf dd x = .ok tt ∧ isTitleTag tt = false) ∧
        (∃ w, extractPropertyValue fuel v = .ok w ∧ meaningful w = true) := by
  intro entries
  induction entries with
  | nil =>
    intro acc s h x
    rw [entriesActiveGo] at h
    injection h with h
    rw [h]
    simp
  | cons kv rest ih =>
    obtain ⟨key, property⟩ := kv
    intro acc s h x
    rw [entriesActiveGo] at h
    split at h
    next e heq => simp at h
    next tt hst =>
      by_cases htt : isTitleTag tt = true
      · rw [if_pos htt] at h
        constructor
        · intro hx
          rcases (ih acc s h x).mp hx with hacc | ⟨v, hv, hsch, hext⟩
          · exact Or.inl hacc
          · exact Or.inr ⟨v, List.mem_cons_of_mem _ hv, hsch, hext⟩
        · intro hx
          rcases hx with hacc | ⟨v, hv, ⟨tt2, hst2, htt2⟩, hext⟩
          · exact (ih acc s h x).mpr (Or.inl hacc)
          · rcases List.mem_cons.mp hv with heq | hv2
            · have hx2 : x = key := congrArg Prod.fst heq
              rw [hx2, hst] at hst2
              injection hst2 with hst2
              rw [← hst2] at htt2
              rw [htt2] at htt
              exact Bool.noConfusion htt
            · exact (ih acc s h x).mpr (Or.inr ⟨v, hv2, ⟨tt2, hst2, htt2⟩, hext⟩)
      · have httf : isTitleTag tt = false := Bool.eq_false_iff.mpr htt
        rw [if_neg htt] at h
        split at h
        next e hex => simp at h
        next value hex =>
          by_cases hm : meaningful value = true
          · rw [if_pos hm] at h
            constructor
            · intro hx
              rcases (ih _ s h x).mp hx with hacc2 | ⟨v, hv, hsch, hext⟩
              · rcases (mem_insertUnique acc key x).mp hacc2 with hacc | rfl
                · exact Or.inl hacc
                · exact Or.inr ⟨property, List.mem_cons_self _ _,
                    ⟨tt, hst, httf⟩, ⟨value, hex, hm⟩⟩
              · exact Or.inr ⟨v, List.mem_cons_of_mem _ hv, hsch, hext⟩
            · intro hx
              rcases hx with hacc | ⟨v, hv, hsch, hext⟩
              · exact (ih _ s h x).mpr (Or.inl ((mem_insertUnique acc key x).mpr (Or.inl hacc)))
              · rcases List.mem_cons.mp hv with heq | hv2
                · have hx2 : x = key := congrArg Prod.fst heq
                  exact (ih _ s h x).mpr
                    (Or.inl ((mem_insertUnique acc key x).mpr (Or.inr hx2)))
                · exact (ih _ s h x).mpr (Or.inr ⟨v, hv2, hsch, hext⟩)
          · rw [if_neg hm] at h
            constructor
            · intro hx
              rcases (ih acc s h x).mp hx with hacc | ⟨v, hv, hsch, hext⟩
              · exact Or.inl hacc
              · exact Or.inr ⟨v, List.mem_cons_of_mem _ hv, hsch, hext⟩
            · intro hx
              rcases hx with hacc | ⟨v, hv, hsch, hext⟩
              · exact (ih acc s h x).mpr (Or.inl hacc)
              · rcases List.mem_cons.mp hv with heq | hv2
                · have hv3 : v = property := congrArg Prod.snd heq
                  rcases hext with ⟨w, hw, hmw⟩
                  rw [hv3, hex] at hw
                  injection hw with hw
                  rw [← hw] at hmw
                  exact absurd hmw hm
                · exact (ih acc s h x).mpr (Or.inr ⟨v, hv2, hsch, hext⟩)

theorem pagesActiveGo_mem (dd : JVal) (fuel : Nat) :
    ∀ (pages : List JVal) (acc s : List String),
      pagesActiveGo dd fuel pages acc = .ok s →
      ∀ x, x ∈ s ↔ x ∈ acc ∨ ∃ page, page ∈ pages ∧ activeQualifies dd fuel x page := by
  intro pages
  induction pages with
  | nil =>
    intro acc s h x
    rw [pagesActiveGo] at h
    injection h with h
    rw [h]
    simp
  | cons page rest ih =>
    intro acc s h x
    rw [pagesActiveGo] at h
    split at h
    next e hpp => simp at h
    next pp hpp =>
      split at h
      next e hen => simp at h
      next entries hen =>
        split at h
        next e hag => simp at h
        next acc2 hag =>
          constructor
          · intro hx
            rcases (ih acc2 s h x).mp hx with hacc2 | ⟨pg, hpg, hq⟩
            · rcases (entriesActiveGo_mem dd fuel entries acc acc2 hag x).mp hacc2 with
                hacc | ⟨v, hv, hsch, hext⟩
              · exact Or.inl hacc
              · obtain ⟨tt, hstx, httx⟩ := hsch
                obtain ⟨w, hwx, hmx⟩ := hext
                exact Or.inr ⟨page, List.mem_cons_self _ _,
                  pp, entries, v, tt, w, hpp, hen, hv, hstx, httx, hwx, hmx⟩
            · exact Or.inr ⟨pg, List.mem_cons_of_mem _ hpg, hq⟩
          · intro hx
            rcases hx with hacc | ⟨pg, hpg, hq⟩
            · exact (ih acc2 s h x).mpr (Or.inl
                ((entriesActiveGo_mem dd fuel entries acc acc2 hag x).mpr (Or.inl hacc)))
            · rcases List.mem_cons.mp hpg with rfl | hpg2
              · obtain ⟨pp2, entries2, v, tt, w, hpp2, hen2, hv, hstx, httx, hwx, hmx⟩ := hq
                rw [hpp] at hpp2
                injection hpp2 with hpp2
                rw [← hpp2] at hen2
                rw [hen] at hen2
                injection hen2 with hen2
                rw [← hen2] at hv
                exact (ih acc2 s h x).mpr (Or.inl
                  ((entriesActiveGo_mem dd fuel entries acc acc2 hag x).mpr
                    (Or.inr ⟨v, hv, ⟨tt, hstx, httx⟩, ⟨w, hwx, hmx⟩⟩)))
              · exact (ih acc2 s h x).mpr (Or.inr ⟨pg, hpg2, hq⟩)

/-- C4: whenever the active-property computation of createBaseFile succeeds,
a property name is listed exactly when some fetched record carries an entry
under that name whose schema type is not title and whose extracted value is
neither null nor undefined nor the empty string nor false — so a number 0
keeps its column active while an all-false checkbox column is dropped — and
the title property never appears in the set. -/
theorem active_property_set_iff (dd : JVal) (fuel : Nat) (pages : List JVal)
    (s : List String) (h : pagesActiveGo dd fuel pages [] = .ok s) :
    (∀ x, x ∈ s ↔ ∃ page, page ∈ pages ∧ activeQualifies dd fuel x page) ∧
    (∀ x tt, schemaTypeOf dd x = .ok tt → isTitleTag tt = true → x ∉ s) := by
  constructor
  · intro x
    have h2 := pagesActiveGo_mem dd fuel pages [] s h x
    simpa using h2
  · intro x tt hst htt hx
    have h2 := (pagesActiveGo_mem dd fuel pages [] s h x).mp hx
    simp only [List.not_mem_nil, false_or] at h2
    obtain ⟨pg, hpg, pp, entries, v, tt2, w, hpp, hen, hv, hstx, httx, hwx, hmx⟩ := h2
    rw [hst] at hstx
    injection hstx with hstx
    rw [← hstx] at httx
    rw [httx] at htt
    exact Bool.noConfusion htt

/-- C4 (witness): in the end-to-end scenario — count 0 in one record, count
null in the other, done false everywhere — the computed active set is
exactly the count column, and its membership matches the qualification
predicate. -/
theorem active_property_set_iff_witness :
    ("count" ∈ (["count"] : List String) ↔
      ∃ page, page ∈ [pageCountZero, pageCountNull] ∧
        activeQualifies ddBase 5 "count" page) :=
  (active_property_set_iff ddBase 5 [pageCountZero, pageCountNull] ["count"] rfl).1 "count"

theorem convertLoop_no_ctx_failures (dd : JVal) (fuel : Nat) (cancel : Nat → Bool) :
    ∀ (pages : List JVal) (poll : Nat) (out : ConvOut),
      convertLoop dd fuel cancel pages poll = .ok out → out.ctxFailures = [] := by
  intro pages
  induction pages with
  | nil =>
    intro poll out h
    rw [convertLoop] at h
    injection h with h
    rw [← h]
  | cons page rest ih =>
    intro poll out h
    rw [convertLoop] at h
    by_cases hc : cancel poll = true
    · rw [if_pos hc] at h
      injection h with h
      rw [← h]
    · rw [if_neg hc] at h
      split at h
      next e hcc => simp at h
      next r hcc =>
        split at h
        next e hcl => simp at h
        next out2 hcl =>
          cases r with
          | some fn =>
            injection h with h
            rw [← h]
            exact ih (poll + 1) out2 hcl
          | none =>
            injection h with h
            rw [← h]
            exact ih (poll + 1) out2 hcl

/-- C8 (amended): a record whose conversion throws is caught locally — it
contributes nothing to the produced files and successes, the failure is
logged to the console rather than reported through the injected reporting
channel, whose failure list stays empty, and the loop continues converting
the remaining records. -/
theorem failed_record_skipped_and_logged (dd : JVal) (fuel : Nat) (bad : JVal)
    (hbad : convertPageCaught dd fuel bad = .ok none) :
    ∀ (xs ys : List JVal) (poll : Nat) (a b : ConvOut),
      convertLoop dd fuel (fun _ => false) xs poll = .ok a →
      convertLoop dd fuel (fun _ => false) ys (poll + xs.length + 1) = .ok b →
      convertLoop dd fuel (fun _ => false) (xs ++ bad :: ys) poll =
        .ok ⟨a.writes ++ b.writes, a.successes ++ b.successes, [],
             a.consoleErrors + b.consoleErrors + 1, b.cancelled, b.pollNext⟩ := by
  intro xs
  induction xs with
  | nil =>
    intro ys poll a b ha hb
    rw [convertLoop] at ha
    injection ha with ha
    have hbf : b.ctxFailures = [] := convertLoop_no_ctx_failures dd fuel _ ys _ b hb
    simp only [List.length_nil, Nat.add_zero] at hb
    rw [List.nil_append, convertLoop, if_neg (by simp)]
    simp only [hbad, hb]
    rw [← ha]
    simp [hbf]
  | cons page xs2 ih =>
    intro ys poll a b ha hb
    rw [convertLoop] at ha
    rw [if_neg (by simp)] at ha
    split at ha
    next e hcc => simp at ha
    next r hcc =>
      split at ha
      next e hcl => simp at ha
      next a2 hcl =>
        have hb2 : convertLoop dd fuel (fun _ => false) ys (poll + 1 + xs2.length + 1) =
            .ok b := by
          have harith : poll + (xs2.length + 1) + 1 = poll + 1 + xs2.length + 1 := by omega
          rw [List.length_cons] at hb
          rwa [harith] at hb
        have hmain := ih ys (poll + 1) a2 b hcl hb2
        rw [List.cons_append, convertLoop, if_neg (by simp), hcc]
        cases r with
        | some fn =>
          injection ha with ha
          rw [← ha]
          simp only [hmain]
          simp
        | none =>
          injection ha with ha
          rw [← ha]
          simp only [hmain]
          have harith2 : a2.consoleErrors + b.consoleErrors + 1 + 1 =
              a2.consoleErrors + 1 + b.consoleErrors + 1 := by omega
          rw [harith2]

/-- C8 (amended, witness): a concrete loop with a failing record after a
converted one skips it, reports nothing through the channel and logs one
console error. -/
theorem failed_record_skipped_and_logged_witness :
    convertLoop ddConvert 6 (fun _ => false) ([goodTitledPage] ++ badFormulaPage :: []) 0 =
      .ok ⟨["Good.md"] ++ [], ["Good.md"] ++ [], [], 0 + 0 + 1, false, 2⟩ :=
  failed_record_skipped_and_logged ddConvert 6 badFormulaPage rfl [goodTitledPage] [] 0
    ⟨["Good.md"], ["Good.md"], [], 0, false, 1⟩ ⟨[], [], [], 0, false, 2⟩ rfl rfl

/-- C8 (counterexample): in a full import run over one fetched page holding
a record that fails conversion and a record that succeeds, the failing
record is skipped and logged to the console, the run continues and reports
success for the other record, and the injected reporting channel receives
no failure at all — the failure list of the trace is empty. -/
theorem failed_record_not_reported :
    runImport (fun _ => false) "Db" ddConvert convertScript false 6 =
      .ok ⟨1, ["Good.md"], ["Good.md"], [], 1⟩ := rfl

theorem jsDotStrict_ok_elim (v : JVal) (key : String) (w : JVal)
    (h : jsDotStrict v key = .ok w) : v.nullish = false ∧ w = jsDot v key := by
  by_cases hn : v.nullish = true
  · simp only [jsDotStrict] at h
    rw [if_pos hn] at h
    simp at h
  · have hnn : v.nullish = false := Bool.eq_false_iff.mpr hn
    simp only [jsDotStrict] at h
    rw [if_neg hn] at h
    injection h with h
    exact ⟨hnn, h.symm⟩

theorem findTitleKeyGo_ok (dpr : JVal) :
    ∀ (ks : List String) (r : Option String),
      findTitleKeyGo dpr ks = .ok r →
      ks.find? (fun k => isTitleTag (optChain (jsDot dpr k) "type")) = r := by
  intro ks
  induction ks with
  | nil =>
    intro r h
    rw [findTitleKeyGo] at h
    injection h
  | cons k rest ih =>
    intro r h
    rw [findTitleKeyGo] at h
    split at h
    next e heq => simp at h
    next tv heq =>
      obtain ⟨hnn, htv⟩ := jsDotStrict_ok_elim _ _ _ heq
      have hopt : optChain (jsDot dpr k) "type" = jsDot (jsDot dpr k) "type" := by
        simp [optChain, hnn]
      by_cases hp : isTitleTag tv = true
      · have hp2 : isTitleTag (optChain (jsDot dpr k) "type") = true := by
          rw [hopt, ← htv]; exact hp
        rw [if_pos hp] at h
        injection h with h
        simp only [List.find?_cons]
        rw [hp2]
        exact h
      · have hp2 : isTitleTag (optChain (jsDot dpr k) "type") = false := by
          rw [hopt, ← htv]; exact Bool.eq_false_iff.mpr hp
        rw [if_neg hp] at h
        simp only [List.find?_cons]
        rw [hp2]
        exact ih r h

theorem exMapM_dot_eq (field : String) :
    ∀ (runs : List JVal) (vs : List JVal),
      exMapM (fun t => jsDotStrict t field) runs = .ok vs →
      vs = runs.map (fun t => jsDot t field) := by
  intro runs
  induction runs with
  | nil =>
    intro vs h
    rw [exMapM] at h
    injection h with h
    simp [← h]
  | cons t rest ih =>
    intro vs h
    rw [exMapM] at h
    split at h
    next e heq => simp at h
    next y heq =>
      split at h
      next e heq2 => simp at h
      next ys heq2 =>
        injection h with h
        obtain ⟨_, hy⟩ := jsDotStrict_ok_elim _ _ _ heq
        rw [← h, List.map_cons, ← hy, ih ys heq2]

/-- C9 (amended): whenever a conversion resolves a title, the result follows
the amended contract — the first schema key of declared type title yields
the concatenation of the plain_text of its runs exactly when that key is a
non-empty string, the record holds a truthy value for it, and that value
has a truthy title field of positive length; in every other case the title
is the literal Untitled.  The non-empty-name condition is forced by the
truthiness test the source applies to the found key. -/
theorem title_resolution_amended (dd : JVal) (fuel : Nat) (page : JVal) (t : String)
    (h : resolveTitle dd fuel page = .ok t) : t = titleSpecAmended dd fuel page := by
  simp only [resolveTitle] at h
  by_cases hdd : dd.nullish = true
  · rw [if_pos hdd] at h; simp at h
  · rw [if_neg hdd] at h
    by_cases hdpr : (jsDot dd "properties").nullish = true
    · rw [if_pos hdpr] at h; simp at h
    · rw [if_neg hdpr] at h
      split at h
      next e hf => simp at h
      next hf =>
        have hfind := findTitleKeyGo_ok (jsDot dd "properties")
          (jsKeys (jsDot dd "properties")) none hf
        simp only [titleSpecAmended, findTitleKeyT]
        rw [hfind]
        injection h with h
        rw [← h]
      next k hf =>
        have hfind := findTitleKeyGo_ok (jsDot dd "properties")
          (jsKeys (jsDot dd "properties")) (some k) hf
        simp only [titleSpecAmended, findTitleKeyT]
        rw [hfind]
        by_cases hk : k = ""
        · rw [if_pos hk] at h
          injection h with h
          rw [← h]
          simp [hk]
        · rw [if_neg hk] at h
          split at h
          next e hpp => simp at h
          next pp hpp =>
            obtain ⟨hpnn, hppv⟩ := jsDotStrict_ok_elim _ _ _ hpp
            by_cases hppn : pp.nullish = true
            · rw [if_pos hppn] at h; simp at h
            · rw [if_neg hppn] at h
              by_cases htv : jsTruthy (jsDot pp k) = false
              · rw [if_pos htv] at h
                injection h with h
                rw [← h]
                simp [hk, ← hppv, htv]
              · have htv2 : jsTruthy (jsDot pp k) = true := by
                  rcases Bool.eq_false_or_eq_true (jsTruthy (jsDot pp k)) with hb | hb
                  · exact hb
                  · exact absurd hb htv
                rw [if_neg htv] at h
                by_cases hta : (jsTruthy (jsDot (jsDot pp k) "title") &&
                    lengthGT0 (jsDot (jsDot pp k) "title")) = true
                · rw [if_pos hta] at h
                  split at h
                  next runs heqt =>
                    split at h
                    next e heqm => simp at h
                    next vs heqm =>
                      injection h with h
                      rw [← h]
                      have hmap := exMapM_dot_eq "plain_text" runs vs heqm
                      rw [heqt] at hta
                      simp [hk, ← hppv, htv2, heqt, hta, hmap]
                  next heqt => simp at h
                · rw [if_neg hta] at h
                  injection h with h
                  rw [← h]
                  have hta2 : (jsTruthy (jsDot (jsDot pp k) "title") &&
                      lengthGT0 (jsDot (jsDot pp k) "title")) = false :=
                    Bool.eq_false_iff.mpr hta
                  simp [hk, ← hppv, htv2, hta2]

/-- C9 (counterexample): with the title property named by the empty string,
the record carries the run Hello — the property exists in the schema and is
present and non-empty in the record — yet the source treats the found key,
the empty string, as falsy and titles the document Untitled instead of the
concatenation Hello of the runs. -/
theorem empty_named_title_ignored :
    resolveTitle ddEmptyName 5 pageEmptyName = .ok "Untitled" ∧
    ("Untitled" : String) ≠ "Hello" :=
  ⟨rfl, by decide⟩

/-- C9 (amended, witness): a concrete resolution under an ordinarily named
title property agrees with the amended contract. -/
theorem title_resolution_amended_witness :
    ("Good" : String) = titleSpecAmended ddNamed 5 pageNamed :=
  title_resolution_amended ddNamed 5 pageNamed "Good" rfl
